import Mathlib

/-!
Shallow embedding of pystream's c_src/stream.c (a multi-threaded STREAM-style
memory-bandwidth microbenchmark) and proofs about its partitioner, kernels,
validator, aggregator and worker loops.

Modelling conventions:
  - STREAM_TYPE (double) is embedded as the rationals, so that kernel
    equations and the validator's tolerance comparison are exact and
    decidable on concrete inputs.
  - The three global arrays a, b, c are total functions from array index
    to rational; an array of length L is only ever read on indices below L.
  - ssize_t and int values that are provably nonnegative in the modelled
    code paths (indices, chunk sizes, iteration counts) are embedded as Nat;
    C integer division on nonnegative operands agrees with Nat division.
    Where a claim quantifies over possibly-negative configuration values
    (the parameter checks in main), Int is used.
  - A C loop "for (j = start; j < end; j++)" is embedded as structural
    recursion on the fuel (end - start), starting at index start.
-/

namespace PyStream

/-- The global arrays a, b, c of stream.c (STREAM_TYPE *a, *b, *c), as one record. -/
structure StreamState where
  a : ℕ → ℚ
  b : ℕ → ℚ
  c : ℕ → ℚ

/-- The operation_t enum of stream.c. -/
inductive operation_t where
  | OP_COPY
  | OP_SCALE
  | OP_ADD
  | OP_TRIAD
deriving DecidableEq, Repr

/-- Loop body iteration of array_copy: c[j] = a[j], advancing j, consuming fuel. -/
def copy_loop (s : StreamState) (j : ℕ) : ℕ → StreamState
  | 0 => s
  | f + 1 => copy_loop { s with c := Function.update s.c j (s.a j) } (j + 1) f

/-- array_copy(start, end): for (j = start; j < end; j++) c[j] = a[j]. -/
def array_copy (s : StreamState) (start stop : ℕ) : StreamState :=
  copy_loop s start (stop - start)

/-- Loop body iteration of array_scale: b[j] = scalar * c[j]. -/
def scale_loop (s : StreamState) (scalar : ℚ) (j : ℕ) : ℕ → StreamState
  | 0 => s
  | f + 1 => scale_loop { s with b := Function.update s.b j (scalar * s.c j) } scalar (j + 1) f

/-- array_scale(start, end, scalar): for (j = start; j < end; j++) b[j] = scalar * c[j]. -/
def array_scale (s : StreamState) (start stop : ℕ) (scalar : ℚ) : StreamState :=
  scale_loop s scalar start (stop - start)

/-- Loop body iteration of array_add: c[j] = a[j] + b[j]. -/
def add_loop (s : StreamState) (j : ℕ) : ℕ → StreamState
  | 0 => s
  | f + 1 => add_loop { s with c := Function.update s.c j (s.a j + s.b j) } (j + 1) f

/-- array_add(start, end): for (j = start; j < end; j++) c[j] = a[j] + b[j]. -/
def array_add (s : StreamState) (start stop : ℕ) : StreamState :=
  add_loop s start (stop - start)

/-- Loop body iteration of array_triad: a[j] = b[j] + scalar * c[j]. -/
def triad_loop (s : StreamState) (scalar : ℚ) (j : ℕ) : ℕ → StreamState
  | 0 => s
  | f + 1 =>
    triad_loop { s with a := Function.update s.a j (s.b j + scalar * s.c j) } scalar (j + 1) f

/-- array_triad(start, end, scalar): for (j = start; j < end; j++) a[j] = b[j] + scalar * c[j]. -/
def array_triad (s : StreamState) (start stop : ℕ) (scalar : ℚ) : StreamState :=
  triad_loop s scalar start (stop - start)

/-- Index partition, main lines 292-294: chunk_size = array_size / num_threads. -/
def chunk_size (L N : ℕ) : ℕ := L / N

/-- main line 313: thread_data[i].start_index = i * chunk_size. -/
def start_index (L N i : ℕ) : ℕ := i * chunk_size L N

/-- main line 314: thread_data[i].end_index =
(i == num_threads - 1) ? array_size : (i + 1) * chunk_size. -/
def end_index (L N i : ℕ) : ℕ :=
  if i = N - 1 then L else (i + 1) * chunk_size L N

/-- main line 297: iterations_per_thread = num_iterations / num_threads. -/
def iterations_per_thread (I N : ℕ) : ℕ := I / N

/-- main line 298: iterations_remainder = num_iterations % num_threads. -/
def iterations_remainder (I N : ℕ) : ℕ := I % N

/-- main line 315: thread_data[i].num_iterations =
iterations_per_thread + (i < iterations_remainder ? 1 : 0). -/
def num_iterations_of (I N i : ℕ) : ℕ :=
  iterations_per_thread I N + (if i < iterations_remainder I N then 1 else 0)

/-- validate, line 485: const double epsilon = 1e-6 (the absolute tolerance). -/
def epsilon : ℚ := 1 / 1000000

/-- The pair of values validate compares at index j for the given operation:
copy compares c[j] with a[j], scale compares b[j] with scalar * c[j],
add compares c[j] with a[j] + b[j], triad compares a[j] with b[j] + scalar * c[j]. -/
def validation_pair (s : StreamState) (op : operation_t) (scalar : ℚ) (j : ℕ) : ℚ × ℚ :=
  match op with
  | .OP_COPY => (s.c j, s.a j)
  | .OP_SCALE => (s.b j, scalar * s.c j)
  | .OP_ADD => (s.c j, s.a j + s.b j)
  | .OP_TRIAD => (s.a j, s.b j + scalar * s.c j)

/-- The per-operation validation loop of validate (lines 487-519): scan j upward;
at the first j whose compared values differ by more than epsilon, report
(j, observed value, expected value) - in the C code this is the fatal
fprintf + exit(EXIT_FAILURE) - otherwise fall through and return normally (none).
validate only reads the arrays; it never writes them. -/
def validate_loop (s : StreamState) (op : operation_t) (scalar : ℚ) (j : ℕ) :
    ℕ → Option (ℕ × ℚ × ℚ)
  | 0 => none
  | f + 1 =>
    if epsilon < |(validation_pair s op scalar j).1 - (validation_pair s op scalar j).2| then
      some (j, validation_pair s op scalar j)
    else
      validate_loop s op scalar (j + 1) f

/-- validate(start, end, operation, scalar), lines 484-524. -/
def validate (s : StreamState) (start stop : ℕ) (op : operation_t) (scalar : ℚ) :
    Option (ℕ × ℚ × ℚ) :=
  validate_loop s op scalar start (stop - start)

/-- The switch of main lines 374-387: number of arrays touched per kernel call. -/
def num_arrays_accessed (op : operation_t) : ℕ :=
  match op with
  | .OP_COPY => 2
  | .OP_SCALE => 2
  | .OP_ADD => 3
  | .OP_TRIAD => 3

/-- main line 390: actual_iterations = runtime_mode ? total_iterations_completed
: num_iterations. -/
def actual_iterations (runtime_mode : Bool) (total_iterations_completed num_iterations : ℕ) :
    ℕ :=
  if runtime_mode then total_iterations_completed else num_iterations

/-- main lines 394-395: total_bytes_moved = actual_iterations / num_threads *
num_arrays_accessed * array_size * sizeof(STREAM_TYPE). The division by
num_threads is truncating integer division and is applied in BOTH modes;
sizeof(double) = 8. -/
def total_bytes_moved (actual num_threads : ℕ) (op : operation_t) (array_size : ℕ) : ℕ :=
  actual / num_threads * num_arrays_accessed op * array_size * 8

/-- main line 415: bandwidth in MB/s = (total_bytes_moved / 1e6) / max_elapsed_time.
(In C this is double division, performed unconditionally; Lean rational division
by zero yields 0 where C would yield a non-finite double.) -/
def bandwidth_MBps (bytes : ℕ) (elapsed : ℚ) : ℚ :=
  ((bytes : ℚ) / 1000000) / elapsed

/-- The bandwidth main reports, as a function of the run parameters
(composition of lines 390, 394-395 and 415). -/
def report_bandwidth (runtime_mode : Bool) (total_iterations_completed num_iterations
    num_threads : ℕ) (op : operation_t) (array_size : ℕ) (elapsed : ℚ) : ℚ :=
  bandwidth_MBps
    (total_bytes_moved (actual_iterations runtime_mode total_iterations_completed num_iterations)
      num_threads op array_size)
    elapsed

/-- The reporting step around line 415 as the code has it: the bandwidth value is
produced unconditionally - there is no branch testing max_elapsed_time before the
division, so a result is emitted (some value) for every elapsed input, zero included. -/
def report_step (bytes : ℕ) (elapsed : ℚ) : Option ℚ :=
  some (bandwidth_MBps bytes elapsed)

/-- Modelled from the spec, for comparison with report_step: the spec's section 4.5
requires elapsed_time to be validated as strictly positive before the division,
treating exactly-zero elapsed time as a measurement error (no bandwidth result). -/
def guarded_report_step (bytes : ℕ) (elapsed : ℚ) : Option ℚ :=
  if 0 < elapsed then some (bandwidth_MBps bytes elapsed) else none

/-- Modelled from the spec, for comparison with total_bytes_moved: the claim's
formula for total bytes - iterations_performed / N in fixed mode but the RAW
Global Iteration Counter value (no division by N) in deadline mode. -/
def claimed_total_bytes (runtime_mode : Bool) (total_iterations_completed num_iterations
    num_threads : ℕ) (op : operation_t) (array_size : ℕ) : ℕ :=
  if runtime_mode then
    total_iterations_completed * num_arrays_accessed op * array_size * 8
  else
    num_iterations / num_threads * num_arrays_accessed op * array_size * 8

/-- main lines 366-371: max_elapsed_time starts at 0.0 and each
thread_completion_times[i] larger than the current value replaces it. -/
def max_elapsed_time (times : List ℚ) : ℚ :=
  times.foldl (fun m t => if m < t then t else m) 0

/-- thread_function lines 620-622: the completion-time entry a thread records is
its own finish instant minus the shared global start time. -/
def completion_entry (global_start finish : ℚ) : ℚ := finish - global_start

/-- main lines 246-261: the arrays are initialized to a[j] = 1.0, b[j] = 2.0,
c[j] = 0.0 before any thread starts. -/
def initial_state : StreamState :=
  { a := fun _ => 1, b := fun _ => 2, c := fun _ => 0 }

/-- main lines 215-226: the three parameter checks; each failure calls
exit(EXIT_FAILURE). True exactly when all three checks pass. The inputs are
Int because atoi/atoll may produce negative values. -/
def check_parameters (num_threads array_size num_iterations : ℤ) : Bool :=
  !(decide (num_threads < 1)) && !(decide (array_size < 1)) && !(decide (num_iterations < 1))

/-- The prefix of main from the parameter checks (lines 214-226) to just before
pthread_create: on any failed check the process exits with failure status
BEFORE the arrays are allocated or any thread is created (none); otherwise it
yields the initialized arrays and the per-thread descriptors
(start_index, end_index, num_iterations) of lines 311-320. -/
def main_setup (num_threads array_size num_iterations : ℤ) :
    Option (StreamState × List (ℕ × ℕ × ℕ)) :=
  if check_parameters num_threads array_size num_iterations then
    some (initial_state,
      (List.range num_threads.toNat).map fun i =>
        (start_index array_size.toNat num_threads.toNat i,
         end_index array_size.toNat num_threads.toNat i,
         num_iterations_of num_iterations.toNat num_threads.toNat i))
  else
    none

/-- The switch in thread_function (lines 564-580 and 599-615): one kernel call
for the thread's operation over its index range. -/
def run_kernel (op : operation_t) (scalar : ℚ) (start stop : ℕ) (s : StreamState) :
    StreamState :=
  match op with
  | .OP_COPY => array_copy s start stop
  | .OP_SCALE => array_scale s start stop scalar
  | .OP_ADD => array_add s start stop
  | .OP_TRIAD => array_triad s start stop scalar

/-- Fixed-iteration mode loop of thread_function (lines 598-616): the kernel is
invoked exactly num_iterations times on the thread's range. -/
def run_thread_fixed (op : operation_t) (scalar : ℚ) (start stop : ℕ) :
    ℕ → StreamState → StreamState
  | 0, s => s
  | n + 1, s => run_thread_fixed op scalar start stop n (run_kernel op scalar start stop s)

/-- Whole fixed-mode run over the arrays: every thread i < N runs its fixed loop
on its own range. The threads run concurrently in the C code, but each kernel
call reads and writes array cells only at indices inside the calling thread's
range and the ranges are pairwise disjoint, so the final array contents equal
those of running the per-thread loops sequentially in thread-id order. -/
def run_fixed (N L I : ℕ) (op : operation_t) (scalar : ℚ) (s : StreamState) : StreamState :=
  (List.range N).foldl
    (fun st i =>
      run_thread_fixed op scalar (start_index L N i) (end_index L N i)
        (num_iterations_of I N i) st)
    s

/-- Deadline-mode loop of thread_function (lines 558-595), abstracted over the
clock: e k is the elapsed time (current_time minus the shared start_time) that
the thread observes at its k-th deadline check - the check that follows its
(k+1)-th kernel call, since the kernel runs before the first check. The loop
exits at the first check whose observed elapsed time reaches the deadline d;
the hypothesis hex says some check eventually does. -/
def exit_check (e : ℕ → ℚ) (d : ℚ) (hex : ∃ k, d ≤ e k) : ℕ :=
  Nat.find hex

/-- Number of kernel calls a deadline-mode thread performs: one per check, and
the loop body runs the kernel before each check, so exit_check + 1 calls. -/
def deadline_iterations (e : ℕ → ℚ) (d : ℚ) (hex : ∃ k, d ≤ e k) : ℕ :=
  exit_check e d hex + 1

/-- The Global Iteration Counter after all joins: every thread atomically adds 1
per loop iteration (line 590), and the counter is read only after the joins, so
its final value is the sum of the per-thread iteration counts. -/
def global_iteration_counter (N : ℕ) (iters : ℕ → ℕ) : ℕ :=
  ∑ t ∈ Finset.range N, iters t

/-! ## Partitioner lemmas -/

lemma end_index_le (L N i : ℕ) (hi : i < N) : end_index L N i ≤ L := by
  unfold end_index chunk_size
  split
  · exact le_refl L
  · calc (i + 1) * (L / N) ≤ N * (L / N) := Nat.mul_le_mul_right _ (by omega)
    _ = L / N * N := Nat.mul_comm _ _
    _ ≤ L := Nat.div_mul_le_self L N

lemma end_index_le_start_index (L N i j : ℕ) (hij : i < j) (hj : j < N) :
    end_index L N i ≤ start_index L N j := by
  unfold end_index start_index chunk_size
  rw [if_neg (by omega)]
  exact Nat.mul_le_mul_right _ (by omega)

lemma partition_disjoint_of_lt (L N i j : ℕ) (hij : i < j) (hj : j < N) :
    Disjoint (Finset.Ico (start_index L N i) (end_index L N i))
      (Finset.Ico (start_index L N j) (end_index L N j)) := by
  apply Finset.disjoint_left.mpr
  intro x hx hx'
  rw [Finset.mem_Ico] at hx hx'
  have h := end_index_le_start_index L N i j hij hj
  omega

lemma lt_succ_div_mul (x ch : ℕ) (hch : 0 < ch) : x < (x / ch + 1) * ch := by
  have hmod := Nat.div_add_mod x ch
  have hlt := Nat.mod_lt x hch
  have hcomm : ch * (x / ch) = x / ch * ch := Nat.mul_comm _ _
  have hsucc : (x / ch + 1) * ch = x / ch * ch + ch := Nat.succ_mul _ _
  omega

lemma partition_cover (L N x : ℕ) (hN : 1 ≤ N) (hx : x < L) :
    ∃ i, i < N ∧ start_index L N i ≤ x ∧ x < end_index L N i := by
  by_cases hlast : (N - 1) * chunk_size L N ≤ x
  · refine ⟨N - 1, by omega, hlast, ?_⟩
    unfold end_index
    rw [if_pos rfl]
    exact hx
  · push_neg at hlast
    have hch : 0 < chunk_size L N := by
      rcases Nat.eq_zero_or_pos (chunk_size L N) with h0 | h
      · rw [h0, Nat.mul_zero] at hlast; omega
      · exact h
    refine ⟨x / chunk_size L N, ?_, ?_, ?_⟩
    · have := (Nat.div_lt_iff_lt_mul hch).mpr hlast
      omega
    · exact Nat.div_mul_le_self x _
    · have hi : x / chunk_size L N < N - 1 := (Nat.div_lt_iff_lt_mul hch).mpr hlast
      unfold end_index
      rw [if_neg (by omega)]
      exact lt_succ_div_mul x _ hch

/-- C1: for every N >= 1 and L >= 1, thread i < N-1 gets [i*(L/N), (i+1)*(L/N)),
the last thread gets [(N-1)*(L/N), L), the N ranges are pairwise disjoint, and
their union is exactly [0, L). -/
theorem partition_ranges_disjoint_cover (L N : ℕ) (hN : 1 ≤ N) (hL : 1 ≤ L) :
    (∀ i, i < N - 1 →
      start_index L N i = i * (L / N) ∧ end_index L N i = (i + 1) * (L / N))
    ∧ (start_index L N (N - 1) = (N - 1) * (L / N) ∧ end_index L N (N - 1) = L)
    ∧ (∀ i j, i < N → j < N → i ≠ j →
        Disjoint (Finset.Ico (start_index L N i) (end_index L N i))
          (Finset.Ico (start_index L N j) (end_index L N j)))
    ∧ (Finset.range N).biUnion
        (fun i => Finset.Ico (start_index L N i) (end_index L N i)) = Finset.Ico 0 L := by
  refine ⟨?_, ⟨rfl, ?_⟩, ?_, ?_⟩
  · intro i hi
    exact ⟨rfl, by unfold end_index chunk_size; rw [if_neg (by omega)]⟩
  · unfold end_index; rw [if_pos rfl]
  · intro i j hi hj hne
    rcases Nat.lt_or_ge i j with h | h
    · exact partition_disjoint_of_lt L N i j h hj
    · exact (partition_disjoint_of_lt L N j i (by omega) hi).symm
  · ext x
    simp only [Finset.mem_biUnion, Finset.mem_range, Finset.mem_Ico]
    constructor
    · rintro ⟨i, hi, hx1, hx2⟩
      exact ⟨Nat.zero_le x, lt_of_lt_of_le hx2 (end_index_le L N i hi)⟩
    · rintro ⟨-, hx⟩
      obtain ⟨i, hi, h1, h2⟩ := partition_cover L N x hN hx
      exact ⟨i, hi, h1, h2⟩

/-- Witness for C1 at N = 2, L = 5: the two ranges cover [0, 5) exactly. -/
theorem partition_ranges_disjoint_cover_witness :
    (Finset.range 2).biUnion
      (fun i => Finset.Ico (start_index 5 2 i) (end_index 5 2 i)) = Finset.Ico 0 5 :=
  (partition_ranges_disjoint_cover 5 2 (by norm_num) (by norm_num)).2.2.2

/-! ## Iteration-split lemmas -/

lemma sum_ite_lt_eq_min (N r : ℕ) :
    (∑ i ∈ Finset.range N, if i < r then 1 else 0) = min r N := by
  induction N with
  | zero => simp
  | succ N ih =>
    rw [Finset.sum_range_succ, ih]
    by_cases h : N < r
    · rw [if_pos h]; omega
    · rw [if_neg h]; omega

/-- C2: thread i is assigned I/N + 1 iterations when i < I%N and I/N otherwise;
for N >= 1 and I >= 1 these assignments sum to I and no two differ by more
than 1. -/
theorem iteration_split_sum_balanced (I N : ℕ) (hN : 1 ≤ N) (hI : 1 ≤ I) :
    (∀ i, num_iterations_of I N i = I / N + if i < I % N then 1 else 0)
    ∧ (∑ i ∈ Finset.range N, num_iterations_of I N i) = I
    ∧ (∀ i j, i < N → j < N →
        num_iterations_of I N i ≤ num_iterations_of I N j + 1) := by
  refine ⟨fun i => rfl, ?_, ?_⟩
  · unfold num_iterations_of iterations_per_thread iterations_remainder
    rw [Finset.sum_add_distrib, Finset.sum_const, Finset.card_range, smul_eq_mul,
      sum_ite_lt_eq_min]
    have hmod : I % N < N := Nat.mod_lt I (by omega)
    have hdm := Nat.div_add_mod I N
    omega
  · intro i j hi hj
    unfold num_iterations_of
    by_cases h1 : i < iterations_remainder I N <;> by_cases h2 : j < iterations_remainder I N <;>
      simp [h1, h2] <;> omega

/-- Witness for C2 at I = 7, N = 3: the three assignments sum to 7. -/
theorem iteration_split_sum_balanced_witness :
    (∑ i ∈ Finset.range 3, num_iterations_of 7 3 i) = 7 :=
  (iteration_split_sum_balanced 7 3 (by norm_num) (by norm_num)).2.1

/-! ## Kernel loop characterizations -/

lemma copy_loop_spec (f : ℕ) : ∀ (s : StreamState) (j : ℕ),
    (copy_loop s j f).a = s.a ∧ (copy_loop s j f).b = s.b ∧
    ∀ i, (copy_loop s j f).c i = if j ≤ i ∧ i < j + f then s.a i else s.c i := by
  induction f with
  | zero =>
    intro s j
    refine ⟨rfl, rfl, fun i => ?_⟩
    rw [if_neg (by omega)]
    rfl
  | succ f ih =>
    intro s j
    obtain ⟨ha, hb, hc⟩ := ih { s with c := Function.update s.c j (s.a j) } (j + 1)
    refine ⟨ha, hb, fun i => ?_⟩
    rw [copy_loop, hc i]
    by_cases h1 : j + 1 ≤ i ∧ i < j + 1 + f
    · rw [if_pos h1, if_pos (by omega)]
    · rw [if_neg h1]
      dsimp only
      by_cases h2 : i = j
      · subst h2
        rw [Function.update_same, if_pos (by omega)]
      · rw [Function.update_noteq h2, if_neg (by omega)]

lemma scale_loop_spec (f : ℕ) : ∀ (s : StreamState) (scalar : ℚ) (j : ℕ),
    (scale_loop s scalar j f).a = s.a ∧ (scale_loop s scalar j f).c = s.c ∧
    ∀ i, (scale_loop s scalar j f).b i =
      if j ≤ i ∧ i < j + f then scalar * s.c i else s.b i := by
  induction f with
  | zero =>
    intro s scalar j
    refine ⟨rfl, rfl, fun i => ?_⟩
    rw [if_neg (by omega)]
    rfl
  | succ f ih =>
    intro s scalar j
    obtain ⟨ha, hc, hb⟩ :=
      ih { s with b := Function.update s.b j (scalar * s.c j) } scalar (j + 1)
    refine ⟨ha, hc, fun i => ?_⟩
    rw [scale_loop, hb i]
    by_cases h1 : j + 1 ≤ i ∧ i < j + 1 + f
    · rw [if_pos h1, if_pos (by omega)]
    · rw [if_neg h1]
      dsimp only
      by_cases h2 : i = j
      · subst h2
        rw [Function.update_same, if_pos (by omega)]
      · rw [Function.update_noteq h2, if_neg (by omega)]

lemma add_loop_spec (f : ℕ) : ∀ (s : StreamState) (j : ℕ),
    (add_loop s j f).a = s.a ∧ (add_loop s j f).b = s.b ∧
    ∀ i, (add_loop s j f).c i = if j ≤ i ∧ i < j + f then s.a i + s.b i else s.c i := by
  induction f with
  | zero =>
    intro s j
    refine ⟨rfl, rfl, fun i => ?_⟩
    rw [if_neg (by omega)]
    rfl
  | succ f ih =>
    intro s j
    obtain ⟨ha, hb, hc⟩ := ih { s with c := Function.update s.c j (s.a j + s.b j) } (j + 1)
    refine ⟨ha, hb, fun i => ?_⟩
    rw [add_loop, hc i]
    by_cases h1 : j + 1 ≤ i ∧ i < j + 1 + f
    · rw [if_pos h1, if_pos (by omega)]
    · rw [if_neg h1]
      dsimp only
      by_cases h2 : i = j
      · subst h2
        rw [Function.update_same, if_pos (by omega)]
      · rw [Function.update_noteq h2, if_neg (by omega)]

lemma triad_loop_spec (f : ℕ) : ∀ (s : StreamState) (scalar : ℚ) (j : ℕ),
    (triad_loop s scalar j f).b = s.b ∧ (triad_loop s scalar j f).c = s.c ∧
    ∀ i, (triad_loop s scalar j f).a i =
      if j ≤ i ∧ i < j + f then s.b i + scalar * s.c i else s.a i := by
  induction f with
  | zero =>
    intro s scalar j
    refine ⟨rfl, rfl, fun i => ?_⟩
    rw [if_neg (by omega)]
    rfl
  | succ f ih =>
    intro s scalar j
    obtain ⟨hb, hc, ha⟩ :=
      ih { s with a := Function.update s.a j (s.b j + scalar * s.c j) } scalar (j + 1)
    refine ⟨hb, hc, fun i => ?_⟩
    rw [triad_loop, ha i]
    by_cases h1 : j + 1 ≤ i ∧ i < j + 1 + f
    · rw [if_pos h1, if_pos (by omega)]
    · rw [if_neg h1]
      dsimp only
      by_cases h2 : i = j
      · subst h2
        rw [Function.update_same, if_pos (by omega)]
      · rw [Function.update_noteq h2, if_neg (by omega)]

/-- C3: over any range [start, stop), copy sets c[i] = a[i], scale sets
b[i] = scalar * c[i], add sets c[i] = a[i] + b[i], triad sets
a[i] = b[i] + scalar * c[i], exactly at the in-range indices; every element
outside the range, and every array a kernel does not write, is unchanged. -/
theorem kernels_defining_equations (s : StreamState) (start stop i : ℕ) (scalar : ℚ) :
    ((array_copy s start stop).c i = if start ≤ i ∧ i < stop then s.a i else s.c i)
    ∧ (array_copy s start stop).a i = s.a i
    ∧ (array_copy s start stop).b i = s.b i
    ∧ ((array_scale s start stop scalar).b i =
        if start ≤ i ∧ i < stop then scalar * s.c i else s.b i)
    ∧ (array_scale s start stop scalar).a i = s.a i
    ∧ (array_scale s start stop scalar).c i = s.c i
    ∧ ((array_add s start stop).c i = if start ≤ i ∧ i < stop then s.a i + s.b i else s.c i)
    ∧ (array_add s start stop).a i = s.a i
    ∧ (array_add s start stop).b i = s.b i
    ∧ ((array_triad s start stop scalar).a i =
        if start ≤ i ∧ i < stop then s.b i + scalar * s.c i else s.a i)
    ∧ (array_triad s start stop scalar).b i = s.b i
    ∧ (array_triad s start stop scalar).c i = s.c i := by
  obtain ⟨hca, hcb, hcc⟩ := copy_loop_spec (stop - start) s start
  obtain ⟨hsa, hsc, hsb⟩ := scale_loop_spec (stop - start) s scalar start
  obtain ⟨haa, hab, hac⟩ := add_loop_spec (stop - start) s start
  obtain ⟨htb, htc, hta⟩ := triad_loop_spec (stop - start) s scalar start
  have hrange : (start ≤ i ∧ i < start + (stop - start)) ↔ (start ≤ i ∧ i < stop) := by omega
  refine ⟨?_, ?_, ?_, ?_, ?_, ?_, ?_, ?_, ?_, ?_, ?_, ?_⟩
  · rw [array_copy, hcc i]; simp only [hrange]
  · rw [array_copy, hca]
  · rw [array_copy, hcb]
  · rw [array_scale, hsb i]; simp only [hrange]
  · rw [array_scale, hsa]
  · rw [array_scale, hsc]
  · rw [array_add, hac i]; simp only [hrange]
  · rw [array_add, haa]
  · rw [array_add, hab]
  · rw [array_triad, hta i]; simp only [hrange]
  · rw [array_triad, htb]
  · rw [array_triad, htc]

/-! ## Validator characterization -/

lemma validate_loop_none_iff (s : StreamState) (op : operation_t) (scalar : ℚ) :
    ∀ (f j : ℕ), validate_loop s op scalar j f = none ↔
      ∀ i, j ≤ i → i < j + f →
        |(validation_pair s op scalar i).1 - (validation_pair s op scalar i).2| ≤ epsilon := by
  intro f
  induction f with
  | zero =>
    intro j
    simp only [validate_loop, true_iff]
    intro i h1 h2
    exact absurd h2 (by omega)
  | succ f ih =>
    intro j
    rw [validate_loop]
    by_cases h :
        epsilon < |(validation_pair s op scalar j).1 - (validation_pair s op scalar j).2|
    · rw [if_pos h]
      constructor
      · intro hfalse
        exact (Option.some_ne_none _ hfalse).elim
      · intro hall
        exact absurd (hall j (le_refl j) (by omega)) (not_le.mpr h)
    · rw [if_neg h, ih (j + 1)]
      constructor
      · intro hall i h1 h2
        by_cases hij : i = j
        · subst hij
          exact le_of_not_lt h
        · exact hall i (by omega) (by omega)
      · intro hall i h1 h2
        exact hall i (by omega) (by omega)

lemma validate_loop_some_spec (s : StreamState) (op : operation_t) (scalar : ℚ) :
    ∀ (f j k : ℕ) (x y : ℚ), validate_loop s op scalar j f = some (k, x, y) →
      j ≤ k ∧ k < j + f ∧ epsilon < |x - y| ∧ (x, y) = validation_pair s op scalar k := by
  intro f
  induction f with
  | zero =>
    intro j k x y h
    simp [validate_loop] at h
  | succ f ih =>
    intro j k x y h
    rw [validate_loop] at h
    by_cases hc :
        epsilon < |(validation_pair s op scalar j).1 - (validation_pair s op scalar j).2|
    · rw [if_pos hc] at h
      rw [Option.some_inj] at h
      injection h with hjk hpair
      subst hjk
      rw [hpair] at hc
      exact ⟨le_refl j, by omega, hc, hpair.symm⟩
    · rw [if_neg hc] at h
      obtain ⟨h1, h2, h3, h4⟩ := ih (j + 1) k x y h
      exact ⟨by omega, by omega, h3, h4⟩

/-- C4: validate compares each in-range index against the operation's defining
equation on the current array contents with absolute tolerance epsilon = 1e-6;
it aborts the process (returns some report, the fatal exit) if and only if some
in-range index deviates beyond the tolerance, and the report carries the
offending index and the two observed values; validate never writes the arrays
(it is a read-only function of the state), so a passing run leaves them
untouched. -/
theorem validate_characterization (s : StreamState) (start stop : ℕ) (op : operation_t)
    (scalar : ℚ) :
    (validate s start stop op scalar = none ↔
      ∀ i, start ≤ i → i < stop →
        |(validation_pair s op scalar i).1 - (validation_pair s op scalar i).2| ≤ epsilon)
    ∧ ((validate s start stop op scalar).isSome ↔
      ∃ i, start ≤ i ∧ i < stop ∧
        epsilon < |(validation_pair s op scalar i).1 - (validation_pair s op scalar i).2|)
    ∧ (∀ k x y, validate s start stop op scalar = some (k, x, y) →
        start ≤ k ∧ k < stop ∧ epsilon < |x - y| ∧ (x, y) = validation_pair s op scalar k) := by
  have hnone : validate s start stop op scalar = none ↔
      ∀ i, start ≤ i → i < stop →
        |(validation_pair s op scalar i).1 - (validation_pair s op scalar i).2| ≤ epsilon := by
    rw [validate, validate_loop_none_iff]
    constructor
    · intro hall i h1 h2
      exact hall i h1 (by omega)
    · intro hall i h1 h2
      exact hall i h1 (by omega)
  refine ⟨hnone, ?_, ?_⟩
  · rw [Option.isSome_iff_ne_none, Ne, hnone]
    push_neg
    simp only [not_le]
  · intro k x y h
    obtain ⟨h1, h2, h3, h4⟩ := validate_loop_some_spec s op scalar (stop - start) start k x y h
    exact ⟨h1, by omega, h3, h4⟩

/-- Witness for C4: on the freshly initialized arrays (a = 1, b = 2, c = 0),
validating range [0, 1) for copy reports index 0 with observed values 0 and 1,
which deviate beyond the tolerance. -/
theorem validate_characterization_witness :
    0 ≤ 0 ∧ 0 < 1 ∧ epsilon < |(0 : ℚ) - 1| ∧
      ((0 : ℚ), (1 : ℚ)) = validation_pair initial_state .OP_COPY 3 0 :=
  (validate_characterization initial_state 0 1 .OP_COPY 3).2.2 0 0 1 (by
    show validate initial_state 0 1 .OP_COPY 3 = some (0, 0, 1)
    rw [validate]
    norm_num [validate_loop, validation_pair, initial_state, epsilon,
      show ((0 : ℚ) - 1) = -1 by norm_num, abs_neg, abs_one])

/-! ## Aggregator: bytes moved and bandwidth -/

/-- C5 counterexample: in deadline mode the code (main line 394) divides the
Global Iteration Counter value by the thread count before multiplying, so with
10 counted iterations, 2 threads, copy and array length 1000 the code computes
80000 bytes, while the claim's raw-counter formula gives 160000. -/
theorem deadline_bytes_counterexample :
    total_bytes_moved (actual_iterations true 10 100) 2 .OP_COPY 1000 = 80000
    ∧ claimed_total_bytes true 10 100 2 .OP_COPY 1000 = 160000
    ∧ total_bytes_moved (actual_iterations true 10 100) 2 .OP_COPY 1000 ≠
        claimed_total_bytes true 10 100 2 .OP_COPY 1000 := by
  refine ⟨rfl, rfl, ?_⟩
  decide

/-- C5 amended: total bytes moved = (actual_iterations / N, truncating division,
in BOTH modes - actual_iterations being the fixed total iteration count in fixed
mode and the raw Global Iteration Counter in deadline mode) times the arrays
touched (2 for copy/scale, 3 for add/triad) times array length times 8; the
fixed-mode example (1 thread, 100 iterations, copy, length 1000, elapsed 1 s)
reports 1.6 MB/s. -/
theorem bytes_moved_formula_and_example :
    (∀ (mode : Bool) (gic fixed_total N L : ℕ) (op : operation_t),
      total_bytes_moved (actual_iterations mode gic fixed_total) N op L =
        (if mode then gic else fixed_total) / N * num_arrays_accessed op * L * 8)
    ∧ report_bandwidth false 0 100 1 .OP_COPY 1000 1 = 8 / 5 := by
  refine ⟨fun mode gic fixed_total N L op => ?_, ?_⟩
  · cases mode <;> rfl
  · norm_num [report_bandwidth, bandwidth_MBps, total_bytes_moved, actual_iterations,
      num_arrays_accessed]

/-- C6 counterexample: at elapsed time exactly 0 the code's report step still
produces a bandwidth result - main performs the division of line 415 with no
positivity test on max_elapsed_time - whereas the guarded aggregator the claim
describes yields no result there. -/
theorem zero_elapsed_counterexample :
    report_step 16000 0 = some (bandwidth_MBps 16000 0)
    ∧ guarded_report_step 16000 0 = none
    ∧ report_step 16000 0 ≠ guarded_report_step 16000 0 := by
  refine ⟨rfl, ?_, ?_⟩
  · rw [guarded_report_step, if_neg (lt_irrefl 0)]
  · rw [guarded_report_step, if_neg (lt_irrefl 0)]
    exact Option.some_ne_none _

/-- C6 amended: main never validates the elapsed time before dividing - the
bandwidth division is executed unconditionally for every elapsed value, zero
included, so an exactly-zero elapsed time flows into the division (yielding a
non-finite double in C) instead of being treated as a measurement error. -/
theorem bandwidth_division_unconditional :
    (∀ (bytes : ℕ) (elapsed : ℚ),
      report_step bytes elapsed = some (bandwidth_MBps bytes elapsed)
      ∧ (report_step bytes elapsed).isSome = true)
    ∧ (report_step 16000 0).isSome = true :=
  ⟨fun bytes elapsed => ⟨rfl, rfl⟩, rfl⟩

/-! ## Aggregator: elapsed time is the table maximum -/

lemma foldl_max_init_le (l : List ℚ) :
    ∀ a : ℚ, a ≤ l.foldl (fun m t => if m < t then t else m) a := by
  induction l with
  | nil => intro a; exact le_refl a
  | cons t l ih =>
    intro a
    rw [List.foldl_cons]
    refine le_trans ?_ (ih (if a < t then t else a))
    by_cases h : a < t
    · rw [if_pos h]; exact le_of_lt h
    · rw [if_neg h]

lemma foldl_max_mem_le (l : List ℚ) :
    ∀ (a x : ℚ), x ∈ l → x ≤ l.foldl (fun m t => if m < t then t else m) a := by
  induction l with
  | nil => intro a x hx; cases hx
  | cons t l ih =>
    intro a x hx
    rw [List.foldl_cons]
    rcases List.mem_cons.mp hx with h | h
    · subst h
      refine le_trans ?_ (foldl_max_init_le l (if a < x then x else a))
      by_cases h : a < x
      · rw [if_pos h]
      · rw [if_neg h]; exact le_of_not_lt h
    · exact ih _ x h

lemma foldl_max_eq_init_or_mem (l : List ℚ) :
    ∀ a : ℚ, l.foldl (fun m t => if m < t then t else m) a = a
      ∨ l.foldl (fun m t => if m < t then t else m) a ∈ l := by
  induction l with
  | nil => intro a; exact Or.inl rfl
  | cons t l ih =>
    intro a
    rw [List.foldl_cons]
    rcases ih (if a < t then t else a) with h | h
    · by_cases ha : a < t
      · rw [if_pos ha] at h ⊢
        exact Or.inr (by rw [h]; exact List.mem_cons_self t l)
      · rw [if_neg ha] at h ⊢
        exact Or.inl h
    · exact Or.inr (List.mem_cons_of_mem t h)

/-- C7: after all threads join, the elapsed run time computed by main
(lines 366-371, a fold of pairwise maxima seeded with 0.0) equals the maximum
entry of the Completion Time Table, whose entry for a thread is that thread's
own finish instant minus the shared global start time: the computed value is
itself one of the entries and no entry exceeds it. -/
theorem elapsed_time_is_table_max (global_start : ℚ) (finishes : List ℚ)
    (hne : finishes ≠ []) (hge : ∀ fi ∈ finishes, global_start ≤ fi) :
    max_elapsed_time (finishes.map fun fi => completion_entry global_start fi)
      ∈ finishes.map (fun fi => completion_entry global_start fi)
    ∧ ∀ t ∈ finishes.map (fun fi => completion_entry global_start fi),
        t ≤ max_elapsed_time (finishes.map fun fi => completion_entry global_start fi) := by
  unfold max_elapsed_time
  set times := finishes.map fun fi => completion_entry global_start fi with htimes
  have hub : ∀ t ∈ times, t ≤ times.foldl (fun m t => if m < t then t else m) 0 :=
    fun t ht => foldl_max_mem_le times 0 t ht
  refine ⟨?_, hub⟩
  rcases foldl_max_eq_init_or_mem times 0 with h | h
  · obtain ⟨fi, hfi⟩ := List.exists_mem_of_ne_nil finishes hne
    have hmem : completion_entry global_start fi ∈ times := by
      rw [htimes]; exact List.mem_map_of_mem _ hfi
    have h1 : completion_entry global_start fi ≤ 0 := h ▸ hub _ hmem
    have h2 : 0 ≤ completion_entry global_start fi := by
      unfold completion_entry
      linarith [hge fi hfi]
    have h0 : completion_entry global_start fi = 0 := le_antisymm h1 h2
    rw [h, ← h0]
    exact hmem
  · exact h

/-- Witness for C7 with global start 1 and finish instants 3 and 2: the computed
elapsed time is one of the two completion-table entries. -/
theorem elapsed_time_is_table_max_witness :
    max_elapsed_time ([3, 2].map fun fi => completion_entry 1 fi)
      ∈ [(3 : ℚ), 2].map (fun fi => completion_entry 1 fi) :=
  (elapsed_time_is_table_max 1 [3, 2] (by simp)
    (by intro fi hfi; fin_cases hfi <;> norm_num)).1

/-! ## Configuration checks happen before any work -/

/-- C8: a configuration with thread count, array length or fixed iteration count
below 1 fails the parameter checks of main and the process exits with failure
status before the arrays are allocated or any thread is created: the setup
yields none, carrying no initialized arrays and no thread descriptors. -/
theorem invalid_config_rejected_early (num_threads array_size num_iterations : ℤ)
    (h : num_threads < 1 ∨ array_size < 1 ∨ num_iterations < 1) :
    check_parameters num_threads array_size num_iterations = false
    ∧ main_setup num_threads array_size num_iterations = none := by
  have hfalse : check_parameters num_threads array_size num_iterations = false := by
    unfold check_parameters
    rcases h with h | h | h <;> simp [h]
  refine ⟨hfalse, ?_⟩
  unfold main_setup
  rw [hfalse]
  rfl

/-- Witness for C8: thread count 0 (with valid length 5 and iteration count 5)
is rejected before allocation and thread creation. -/
theorem invalid_config_rejected_early_witness :
    main_setup 0 5 5 = none :=
  (invalid_config_rejected_early 0 5 5 (Or.inl (by norm_num))).2

/-! ## Deadline-mode worker loop -/

/-- C9: in deadline mode each thread runs one full kernel call before its first
deadline check, so it performs at least one iteration and the Global Iteration
Counter is positive after the joins; a thread leaves its loop only at a check
observing elapsed time at or past the deadline d, so its recorded completion
time (taken at or after that check on a monotone clock) is at least d and so is
the aggregated elapsed time; and the overrun past d is bounded by the duration
of the final kernel pass, the gap between the last two clock observations. -/
theorem deadline_mode_bounds (N : ℕ) (hN : 1 ≤ N) (d : ℚ) (hd : 0 < d)
    (e : ℕ → ℕ → ℚ) (hex : ∀ t, ∃ k, d ≤ e t k)
    (completion : ℕ → ℚ)
    (hcomp : ∀ t, e t (exit_check (e t) d (hex t)) ≤ completion t) :
    (∀ t, 1 ≤ deadline_iterations (e t) d (hex t))
    ∧ 0 < global_iteration_counter N (fun t => deadline_iterations (e t) d (hex t))
    ∧ (∀ t, d ≤ e t (exit_check (e t) d (hex t)))
    ∧ (∀ t, d ≤ completion t)
    ∧ d ≤ max_elapsed_time ((List.range N).map completion)
    ∧ (∀ t k, k = exit_check (e t) d (hex t) →
        e t k - d ≤ e t k - (if k = 0 then 0 else e t (k - 1))) := by
  have hspec : ∀ t, d ≤ e t (exit_check (e t) d (hex t)) := fun t => Nat.find_spec (hex t)
  have hcompl : ∀ t, d ≤ completion t := fun t => le_trans (hspec t) (hcomp t)
  refine ⟨fun t => by unfold deadline_iterations; omega, ?_, hspec, hcompl, ?_, ?_⟩
  · unfold global_iteration_counter
    apply Finset.sum_pos
    · intro t ht
      unfold deadline_iterations
      omega
    · exact ⟨0, Finset.mem_range.mpr (by omega)⟩
  · have hmem : completion 0 ∈ (List.range N).map completion :=
      List.mem_map_of_mem completion (List.mem_range.mpr (by omega))
    exact le_trans (hcompl 0) (foldl_max_mem_le _ 0 _ hmem)
  · intro t k hk
    subst hk
    by_cases hk0 : exit_check (e t) d (hex t) = 0
    · rw [if_pos hk0]
      linarith [hd]
    · rw [if_neg hk0]
      have hmin : ¬ d ≤ e t (exit_check (e t) d (hex t) - 1) :=
        Nat.find_min (hex t) (by unfold exit_check at hk0 ⊢; omega)
      have hlt : e t (exit_check (e t) d (hex t) - 1) < d := lt_of_not_le hmin
      linarith

/-- A clock trace that reads 2 at every deadline check reaches deadline 1. -/
lemma always_past_deadline : ∃ k : ℕ, (1 : ℚ) ≤ (fun _ : ℕ => (2 : ℚ)) k :=
  ⟨0, by norm_num⟩

/-- Witness for C9: one thread whose clock reads 2 at every check, deadline 1,
completion time 2 - the Global Iteration Counter is positive after the run. -/
theorem deadline_mode_bounds_witness :
    0 < global_iteration_counter 1
      (fun t => deadline_iterations ((fun _ _ => (2 : ℚ)) t) 1
        ((fun _ => always_past_deadline) t)) :=
  (deadline_mode_bounds 1 (le_refl 1) 1 one_pos (fun _ _ => (2 : ℚ))
    (fun _ => always_past_deadline) (fun _ => 2) (fun _ => le_refl 2)).2.1

/-! ## Fixed mode with fewer iterations than threads -/

lemma run_thread_fixed_copy_outside (scalar : ℚ) (st sp : ℕ) :
    ∀ (n : ℕ) (s : StreamState),
      (run_thread_fixed .OP_COPY scalar st sp n s).a = s.a
      ∧ (run_thread_fixed .OP_COPY scalar st sp n s).b = s.b
      ∧ ∀ i, i < st ∨ sp ≤ i → (run_thread_fixed .OP_COPY scalar st sp n s).c i = s.c i := by
  intro n
  induction n with
  | zero => intro s; exact ⟨rfl, rfl, fun i _ => rfl⟩
  | succ n ih =>
    intro s
    obtain ⟨ha, hb, hc⟩ := ih (run_kernel .OP_COPY scalar st sp s)
    rw [run_thread_fixed]
    refine ⟨?_, ?_, ?_⟩
    · rw [ha]
      exact (copy_loop_spec (sp - st) s st).1
    · rw [hb]
      exact (copy_loop_spec (sp - st) s st).2.1
    · intro i hi
      rw [hc i hi]
      show (copy_loop s st (sp - st)).c i = s.c i
      rw [(copy_loop_spec (sp - st) s st).2.2 i, if_neg (by omega)]

lemma run_fixed_copy_untouched (scalar : ℚ) (N L I jstar : ℕ) :
    ∀ (l : List ℕ) (s : StreamState),
      (∀ t ∈ l, num_iterations_of I N t = 0 ∨ end_index L N t ≤ jstar) →
      ((l.foldl (fun st i =>
          run_thread_fixed .OP_COPY scalar (start_index L N i) (end_index L N i)
            (num_iterations_of I N i) st) s).a = s.a
      ∧ (l.foldl (fun st i =>
          run_thread_fixed .OP_COPY scalar (start_index L N i) (end_index L N i)
            (num_iterations_of I N i) st) s).c jstar = s.c jstar) := by
  intro l
  induction l with
  | nil => intro s _; exact ⟨rfl, rfl⟩
  | cons t l ih =>
    intro s h
    rw [List.foldl_cons]
    obtain ⟨iha, ihc⟩ := ih
      (run_thread_fixed .OP_COPY scalar (start_index L N t) (end_index L N t)
        (num_iterations_of I N t) s)
      (fun u hu => h u (List.mem_cons_of_mem t hu))
    obtain ⟨ka, kb, kc⟩ :=
      run_thread_fixed_copy_outside scalar (start_index L N t) (end_index L N t)
        (num_iterations_of I N t) s
    rcases h t (List.mem_cons_self t l) with h0 | hout
    · constructor
      · rw [iha, h0, run_thread_fixed]
      · rw [ihc, h0, run_thread_fixed]
    · constructor
      · rw [iha, ka]
      · rw [ihc, kc jstar (Or.inr hout)]

/-- C10: in fixed mode with 1 <= I < N <= L and operation copy, every thread
with id >= I is assigned zero iterations and performs no kernel call; the
configuration nevertheless passes every parameter check, the last thread's
range is non-empty, and validating that range after the run still sees the
initialized contents (a = 1, c = 0), so validation fails at the range's first
index with observed values 0 and 1 - in the C code a fatal
exit(EXIT_FAILURE) for the whole process. -/
theorem zero_iteration_thread_validation_fails (N I L : ℕ) (scalar : ℚ)
    (hI : 1 ≤ I) (hIN : I < N) (hNL : N ≤ L) :
    (∀ t, I ≤ t → t < N → num_iterations_of I N t = 0)
    ∧ check_parameters N L I = true
    ∧ start_index L N (N - 1) < end_index L N (N - 1)
    ∧ validate (run_fixed N L I .OP_COPY scalar initial_state)
        (start_index L N (N - 1)) (end_index L N (N - 1)) .OP_COPY scalar
      = some (start_index L N (N - 1), 0, 1) := by
  have hzero : ∀ t, I ≤ t → t < N → num_iterations_of I N t = 0 := by
    intro t htI htN
    unfold num_iterations_of iterations_per_thread iterations_remainder
    rw [Nat.div_eq_of_lt hIN, Nat.mod_eq_of_lt hIN, if_neg (by omega)]
  have hE : end_index L N (N - 1) = L := by
    unfold end_index
    rw [if_pos rfl]
  have hch : 1 ≤ chunk_size L N := by
    unfold chunk_size
    exact (Nat.one_le_div_iff (by omega)).mpr hNL
  have hmulN : N * chunk_size L N ≤ L := by
    calc N * chunk_size L N = chunk_size L N * N := Nat.mul_comm _ _
    _ ≤ L := Nat.div_mul_le_self L N
  have hmulsplit : (N - 1) * chunk_size L N + chunk_size L N = N * chunk_size L N := by
    rw [Nat.sub_mul, Nat.one_mul]
    have hle : chunk_size L N ≤ N * chunk_size L N := by
      have := Nat.mul_le_mul_right (chunk_size L N) (show 1 ≤ N by omega)
      simpa using this
    omega
  have hlt : start_index L N (N - 1) < end_index L N (N - 1) := by
    rw [hE]
    unfold start_index
    omega
  have hcond : ∀ t ∈ List.range N,
      num_iterations_of I N t = 0 ∨ end_index L N t ≤ start_index L N (N - 1) := by
    intro t ht
    rw [List.mem_range] at ht
    by_cases hlast : t = N - 1
    · subst hlast
      exact Or.inl (hzero (N - 1) (by omega) (by omega))
    · right
      unfold end_index start_index
      rw [if_neg hlast]
      exact Nat.mul_le_mul_right _ (by omega)
  obtain ⟨hfa, hfc⟩ :=
    run_fixed_copy_untouched scalar N L I (start_index L N (N - 1)) (List.range N)
      initial_state hcond
  refine ⟨hzero, ?_, hlt, ?_⟩
  · simp only [check_parameters, Bool.and_eq_true, Bool.not_eq_true',
      decide_eq_false_iff_not, not_lt]
    refine ⟨⟨?_, ?_⟩, ?_⟩ <;> omega
  · have ha1 : (run_fixed N L I .OP_COPY scalar initial_state).a (start_index L N (N - 1)) = 1 :=
      congrFun hfa (start_index L N (N - 1))
    have hc0 : (run_fixed N L I .OP_COPY scalar initial_state).c (start_index L N (N - 1)) = 0 :=
      hfc
    have hpaireq : validation_pair (run_fixed N L I .OP_COPY scalar initial_state)
        .OP_COPY scalar (start_index L N (N - 1)) = ((0 : ℚ), (1 : ℚ)) := by
      show ((run_fixed N L I .OP_COPY scalar initial_state).c (start_index L N (N - 1)),
        (run_fixed N L I .OP_COPY scalar initial_state).a (start_index L N (N - 1))) = (0, 1)
      rw [ha1, hc0]
    have hcl : epsilon < |(0 : ℚ) - 1| := by
      rw [show ((0 : ℚ) - 1) = -1 by norm_num, abs_neg, abs_one, epsilon]
      norm_num
    rw [hE] at hlt ⊢
    obtain ⟨m, hm⟩ : ∃ m, L - start_index L N (N - 1) = m + 1 :=
      ⟨L - start_index L N (N - 1) - 1, by omega⟩
    unfold validate
    rw [hm, validate_loop, hpaireq, if_pos hcl]

/-- Witness for C10 at N = 2, I = 1, L = 2: thread 1 runs no kernel call and its
validation of range [1, 2) fails, reporting index 1 with values 0 and 1. -/
theorem zero_iteration_thread_validation_fails_witness :
    validate (run_fixed 2 2 1 .OP_COPY 3 initial_state)
      (start_index 2 2 1) (end_index 2 2 1) .OP_COPY 3
    = some (start_index 2 2 1, 0, 1) :=
  (zero_iteration_thread_validation_fails 2 1 2 3 (le_refl 1) (by omega) (le_refl 2)).2.2.2

end PyStream
